import Mathlib

/-!
Shallow embedding of the cma arena allocator (include/cma/cmalib.h).

Machine integers (std::size_t, std::uintptr_t) are modelled as Nat with
explicit reduction modulo 2^64 wherever the C++ arithmetic can wrap.
Pointers are numeric addresses (Nat); the null pointer is 0.  The system
allocator (::operator new) is modelled as a bump allocator over a finite
address space that hands out fresh 16-byte-aligned regions (operator new
returns storage aligned for max_align_t, 16 bytes on x86-64); like the
real allocator it can fail, here when the address space is exhausted.
-/

namespace cma

/-- One past the largest value of std::size_t and std::uintptr_t (64-bit). -/
def usizeTop : Nat := 2 ^ 64

/-- alignof(std::max_align_t): the platform maximum natural alignment. -/
def maxAlignT : Nat := 16

/-- Wrapping 64-bit subtraction, for operands below 2^64: models size_t and
pointer-difference arithmetic. -/
def sub64 (a b : Nat) : Nat := (a + usizeTop - b) % usizeTop

namespace impl

/-- std::has_single_bit on a 64-bit value: x is a power of two. -/
def is_pow_2 (x : Nat) : Bool := (List.range 64).any fun k => x == 2 ^ k

/-- impl::align_up: (addr + (alignment - 1)) & ~(alignment - 1) in 64-bit
arithmetic; alignment - 1 wraps for alignment = 0 and the complement of a
64-bit value v is (2^64 - 1) - v. -/
def align_up (p alignment : Nat) : Nat :=
  ((p + sub64 alignment 1) % usizeTop) &&& ((usizeTop - 1) - sub64 alignment 1)

/-- impl::overflow_addition: first component is a + b with 64-bit wrap (the
out-parameter res), second reports overflow, detected as res < a. -/
def overflow_addition (a b : Nat) : Nat × Bool :=
  ((a + b) % usizeTop, decide ((a + b) % usizeTop < a))

end impl

/-- cma::block.  end is a Lean keyword, so the end pointer is stored as end_.
next holds the id (index into arena.blocks) of the following block, none for
nullptr. -/
structure block where
  data : Nat
  cur : Nat
  end_ : Nat
  next : Option Nat
  capacity : Nat
deriving DecidableEq

/-- cma::arena::marker: the block that was active (none for a null pointer)
and the cursor within it at capture time. -/
structure marker where
  mem : Option Nat
  cur : Nat
deriving DecidableEq

/-- One past the highest address the modelled system allocator hands out. -/
def memLimit : Nat := 2 ^ 61

/-- Model of ::operator new(bytes): the start address of a fresh region and
the allocator's next free address (kept 16-byte aligned), or none when the
request cannot be satisfied. -/
def opNew (nextAddr bytes : Nat) : Option (Nat × Nat) :=
  if nextAddr + bytes ≤ memLimit then
    some (nextAddr, ((nextAddr + bytes + 15) / 16) * 16)
  else
    none

/-- cma::arena.  blocks is the model heap: every block this arena ever
created, in creation order; block ids are indices into this list, so a block
the chain no longer reaches is still recorded (it is leaked, never freed).
_head and _active are block ids; nextAddr is the system allocator state. -/
structure arena where
  _block_size : Nat
  blocks : List block
  _head : Nat
  _active : Nat
  nextAddr : Nat
deriving DecidableEq

/-- arena::arena(initial_block_size): clamps the block size to at least 1024
and allocates the first block; none when the system allocation fails.  The
model heap starts handing out addresses at 16. -/
def arena.init (initial_block_size : Nat) : Option arena :=
  let bs := max initial_block_size 1024
  match opNew 16 bs with
  | none => none
  | some (addr, na) =>
    some { _block_size := bs
         , blocks := [{ data := addr, cur := addr, end_ := addr + bs
                      , next := none, capacity := bs }]
         , _head := 0
         , _active := 0
         , nextAddr := na }

/-- The alignment arena::allocate_bytes actually uses: zero or a non power
of two is silently replaced by alignof(std::max_align_t). -/
def effAlign (alignment : Nat) : Nat :=
  if alignment == 0 || !(impl.is_pow_2 alignment) then maxAlignT else alignment

/-- arena::try_alloc_at_active: bump allocation from the active block.  The
C++ guard compares static_cast<size_t>(end - aligned), a wrapping 64-bit
pointer difference, modelled by sub64. -/
def arena.try_alloc_at_active (a : arena) (bytes alignment : Nat) :
    Option (arena × Nat) :=
  match a.blocks[a._active]? with
  | none => none
  | some blk =>
    let aligned := impl.align_up blk.cur alignment
    if sub64 blk.end_ aligned < bytes then
      none
    else
      some ({ a with blocks :=
                a.blocks.set a._active { blk with cur := (aligned + bytes) % usizeTop } },
            aligned)

/-- std::bad_alloc. -/
inductive AllocErr where
  | badAlloc
deriving DecidableEq

instance {ε α : Type} [DecidableEq ε] [DecidableEq α] :
    DecidableEq (Except ε α) := fun x y =>
  match x, y with
  | .ok a, .ok b => if h : a = b then isTrue (by rw [h]) else isFalse (by simp [h])
  | .error a, .error b => if h : a = b then isTrue (by rw [h]) else isFalse (by simp [h])
  | .ok _, .error _ => isFalse (by simp)
  | .error _, .ok _ => isFalse (by simp)

/-- arena::allocate_bytes.  Returns the arena after the call together with
either the returned pointer (0 for the bytes == 0 early return) or a thrown
std::bad_alloc.  The overflow and system-allocation failures leave the arena
unchanged; the final failure after growth leaves the grown arena. -/
def arena.allocate_bytes (a : arena) (bytes alignment : Nat) :
    arena × Except AllocErr Nat :=
  if bytes = 0 then (a, .ok 0)
  else
    let alignment := effAlign alignment
    match a.try_alloc_at_active bytes alignment with
    | some (a', p) => (a', .ok p)
    | none =>
      match a.blocks[a._active]? with
      | none => (a, .error .badAlloc)
      | some ab =>
        if (impl.overflow_addition bytes alignment).2 then (a, .error .badAlloc)
        else
          let need := (impl.overflow_addition bytes alignment).1
          let new_cap := max (max ((ab.capacity * 2) % usizeTop) need) a._block_size
          match opNew a.nextAddr new_cap with
          | none => (a, .error .badAlloc)
          | some (addr, na) =>
            let idx := a.blocks.length
            let b : block := { data := addr, cur := addr, end_ := addr + new_cap
                             , next := none, capacity := new_cap }
            let a₂ : arena :=
              { a with blocks := (a.blocks.set a._active { ab with next := some idx }) ++ [b]
                     , _active := idx
                     , nextAddr := na }
            match a₂.try_alloc_at_active bytes alignment with
            | some (a₃, p) => (a₃, .ok p)
            | none => (a₂, .error .badAlloc)

/-- arena::create_marker: marker{_active, _active ? _active->cur : nullptr}. -/
def arena.create_marker (a : arena) : marker :=
  { mem := some a._active
  , cur := match a.blocks[a._active]? with
           | some b => b.cur
           | none => 0 }

/-- The block ids visited when following next links starting at o (o's own id
first).  fuel bounds the walk; blocks.length steps suffice for chains whose
links always point forward in creation order, which is every chain the arena
operations build. -/
def chainFrom (blocks : List block) (o : Option Nat) (fuel : Nat) : List Nat :=
  match fuel, o with
  | 0, _ => []
  | _, none => []
  | fuel + 1, some i =>
    match blocks[i]? with
    | none => []
    | some b => i :: chainFrom blocks b.next fuel

/-- The loop of arena::rollback_to: walks the chain starting at o, resetting
each visited block's cur to its data. -/
def resetChain (blocks : List block) (o : Option Nat) (fuel : Nat) : List block :=
  match fuel, o with
  | 0, _ => blocks
  | _, none => blocks
  | fuel + 1, some i =>
    match blocks[i]? with
    | none => blocks
    | some b => resetChain (blocks.set i { b with cur := b.data }) b.next fuel

/-- arena::rollback_to: returns unchanged for a null marker; otherwise makes
the marker's block active, restores its cur, and resets the cur of every
block reachable after it through next links back to that block's data. -/
def arena.rollback_to (a : arena) (m : marker) : arena :=
  match m.mem with
  | none => a
  | some i =>
    match a.blocks[i]? with
    | none => a
    | some b =>
      let blocks₁ := a.blocks.set i { b with cur := m.cur }
      { a with _active := i, blocks := resetChain blocks₁ b.next blocks₁.length }

/-- Errors propagating out of arena::make: a bad_alloc from allocate_bytes,
or the exception thrown by the constructor of T. -/
inductive MakeErr where
  | alloc
  | ctorFailed
deriving DecidableEq

/-- arena::make<T>: size and align stand for sizeof(T) and alignof(T), and
ctorOk tells whether the placement construction of T succeeds or throws.
When the constructor throws, the arena is rolled back to the marker captured
before the allocation and the exception is rethrown. -/
def arena.make (a : arena) (size align : Nat) (ctorOk : Bool) :
    arena × Except MakeErr Nat :=
  let m := a.create_marker
  match a.allocate_bytes size align with
  | (a', .error _) => (a', .error .alloc)
  | (a', .ok p) =>
    if ctorOk then (a', .ok p)
    else (a'.rollback_to m, .error .ctorFailed)

/-- Issues a list of (bytes, alignment) requests in order, returning the
final arena and the per-request results. -/
def allocSeq (a : arena) : List (Nat × Nat) → arena × List (Except AllocErr Nat)
  | [] => (a, [])
  | (b, al) :: rest =>
    let r := a.allocate_bytes b al
    let rs := allocSeq r.1 rest
    (rs.1, r.2 :: rs.2)

/-- Every request in the list is either a zero-byte no-op or satisfied
directly from the then-active block, with no chunk growth. -/
def fitsActive (a : arena) : List (Nat × Nat) → Bool
  | [] => true
  | (b, al) :: rest =>
    if b = 0 then fitsActive a rest
    else
      match a.try_alloc_at_active b (effAlign al) with
      | some (a', _) => fitsActive a' rest
      | none => false

/-- Every next link points forward in creation order and stays in bounds.
This holds for every arena the operations construct and makes the next
chains acyclic. -/
def chainInc (blocks : List block) : Bool :=
  (List.range blocks.length).all fun j =>
    match blocks[j]? with
    | none => true
    | some b =>
      match b.next with
      | none => true
      | some k => decide (j < k) && decide (k < blocks.length)

/-- The arena produced by arena::init 1024 in the model heap. -/
def initArena : arena :=
  { _block_size := 1024
  , blocks := [{ data := 16, cur := 16, end_ := 1040, next := none, capacity := 1024 }]
  , _head := 0
  , _active := 0
  , nextAddr := 1040 }

theorem arena_init_1024 : arena.init 1024 = some initArena := by decide

theorem usizeTop_pos : 0 < usizeTop := by decide

theorem sub64_eq_of_le {a b : Nat} (hb : b ≤ a) (ha : a - b < usizeTop) :
    sub64 a b = a - b := by
  unfold sub64
  have h1 : a + usizeTop - b = (a - b) + usizeTop := by omega
  rw [h1, Nat.add_mod_right, Nat.mod_eq_of_lt ha]

theorem sub64_one {a : Nat} (h1 : 1 ≤ a) (h2 : a ≤ usizeTop) : sub64 a 1 = a - 1 := by
  exact sub64_eq_of_le h1 (by omega)

/-- Clearing the k low bits of a 64-bit value with the mask 2^64 - 2^k. -/
theorem land_mask_eq (y k : Nat) (hk : k ≤ 64) (hy : y < usizeTop) :
    y &&& (usizeTop - 2 ^ k) = 2 ^ k * (y / 2 ^ k) := by
  have hprod : 2 ^ k * 2 ^ (64 - k) = usizeTop := by
    rw [← pow_add]
    unfold usizeTop
    congr 1
    omega
  have hmask : usizeTop - 2 ^ k = 2 ^ k * (2 ^ (64 - k) - 1) := by
    rw [Nat.mul_sub, hprod, Nat.mul_one]
  apply Nat.eq_of_testBit_eq
  intro i
  rw [Nat.testBit_and, hmask, Nat.testBit_mul_pow_two, Nat.testBit_mul_pow_two,
    Nat.testBit_two_pow_sub_one]
  have hdiv : y / 2 ^ k = y >>> k := (Nat.shiftRight_eq_div_pow y k).symm
  rw [hdiv, Nat.testBit_shiftRight]
  by_cases hik : k ≤ i
  · have hki : k + (i - k) = i := by omega
    rw [hki]
    by_cases hi64 : i < 64
    · have : i - k < 64 - k := by omega
      simp [hik, this]
    · have hyb : y.testBit i = false := by
        apply Nat.testBit_lt_two_pow
        calc y < usizeTop := hy
          _ ≤ 2 ^ i := Nat.pow_le_pow_right (by omega) (by omega)
      simp [hyb]
  · simp [hik]

theorem is_pow_2_iff (x : Nat) :
    impl.is_pow_2 x = true ↔ ∃ k, k < 64 ∧ x = 2 ^ k := by
  unfold impl.is_pow_2
  rw [List.any_eq_true]
  constructor
  · rintro ⟨k, hk, hx⟩
    exact ⟨k, List.mem_range.mp hk, by simpa using hx⟩
  · rintro ⟨k, hk, hx⟩
    exact ⟨k, List.mem_range.mpr hk, by simpa using hx⟩

theorem effAlign_pow2 (alignment : Nat) :
    ∃ k, k < 64 ∧ effAlign alignment = 2 ^ k := by
  unfold effAlign
  by_cases h : (alignment == 0 || !(impl.is_pow_2 alignment)) = true
  · rw [if_pos h]
    exact ⟨4, by omega, by decide⟩
  · rw [if_neg h]
    have hp : impl.is_pow_2 alignment = true := by
      have hf : (alignment == 0 || !(impl.is_pow_2 alignment)) = false :=
        Bool.eq_false_iff.mpr h
      rcases Bool.or_eq_false_iff.mp hf with ⟨-, h2⟩
      simpa using h2
    exact (is_pow_2_iff alignment).mp hp

theorem effAlign_le (alignment : Nat) : effAlign alignment ≤ 2 ^ 63 := by
  obtain ⟨k, hk, he⟩ := effAlign_pow2 alignment
  rw [he]
  exact Nat.pow_le_pow_right (by omega) (by omega)

theorem effAlign_pos (alignment : Nat) : 0 < effAlign alignment := by
  obtain ⟨k, hk, he⟩ := effAlign_pow2 alignment
  rw [he]
  exact Nat.pos_pow_of_pos k (by omega)

/-- align_up always returns a multiple of a power-of-two alignment. -/
theorem align_up_dvd (p k : Nat) (hk : k < 64) :
    2 ^ k ∣ impl.align_up p (2 ^ k) := by
  unfold impl.align_up
  have h1 : sub64 (2 ^ k) 1 = 2 ^ k - 1 := by
    apply sub64_one
    · exact Nat.one_le_two_pow
    · exact Nat.pow_le_pow_right (by omega) (by omega)
  have hmask : (usizeTop - 1) - (2 ^ k - 1) = usizeTop - 2 ^ k := by
    have : 1 ≤ 2 ^ k := Nat.one_le_two_pow
    have : 2 ^ k ≤ usizeTop := Nat.pow_le_pow_right (by omega) (by omega)
    omega
  rw [h1, hmask, land_mask_eq _ k (by omega) (Nat.mod_lt _ usizeTop_pos)]
  exact Dvd.intro _ rfl

/-- With no 64-bit wrap, align_up rounds up to the next multiple: it does not
move the pointer below its argument and overshoots by less than the alignment. -/
theorem align_up_spec (p k : Nat) (hk : k < 64) (hp : p + 2 ^ k ≤ usizeTop) :
    p ≤ impl.align_up p (2 ^ k) ∧
    impl.align_up p (2 ^ k) ≤ p + (2 ^ k - 1) := by
  have hone : 1 ≤ 2 ^ k := Nat.one_le_two_pow
  have hle : 2 ^ k ≤ usizeTop := Nat.pow_le_pow_right (by omega) (by omega)
  have h1 : sub64 (2 ^ k) 1 = 2 ^ k - 1 := sub64_one hone hle
  have hmask : (usizeTop - 1) - (2 ^ k - 1) = usizeTop - 2 ^ k := by omega
  have hy : p + (2 ^ k - 1) < usizeTop := by omega
  have hmod : (p + (2 ^ k - 1)) % usizeTop = p + (2 ^ k - 1) := Nat.mod_eq_of_lt hy
  unfold impl.align_up
  rw [h1, hmask, hmod, land_mask_eq _ k (by omega) hy]
  have hdm := Nat.div_add_mod (p + (2 ^ k - 1)) (2 ^ k)
  have hmlt : (p + (2 ^ k - 1)) % 2 ^ k < 2 ^ k := Nat.mod_lt _ (by omega)
  omega

/-- A successful bump allocation: the pointer is the rounded-up cursor, the
guard passed, and the only change is the active block's cursor. -/
theorem try_alloc_some_spec {a a' : arena} {bytes alignment p : Nat} {blk : block}
    (hblk : a.blocks[a._active]? = some blk)
    (h : a.try_alloc_at_active bytes alignment = some (a', p)) :
    p = impl.align_up blk.cur alignment ∧
    ¬ sub64 blk.end_ (impl.align_up blk.cur alignment) < bytes ∧
    a' = { a with blocks := a.blocks.set a._active { blk with
            cur := (impl.align_up blk.cur alignment + bytes) % usizeTop } } := by
  simp only [arena.try_alloc_at_active, hblk] at h
  by_cases hg : sub64 blk.end_ (impl.align_up blk.cur alignment) < bytes
  · rw [if_pos hg] at h
    exact absurd h (by simp)
  · rw [if_neg hg] at h
    injection h with h1
    injection h1 with h2 h3
    exact ⟨h3.symm, hg, h2.symm⟩

/-- Any pointer a successful bump allocation returns came from align_up. -/
theorem try_alloc_ptr {a a' : arena} {bytes alignment p : Nat}
    (h : a.try_alloc_at_active bytes alignment = some (a', p)) :
    ∃ c, p = impl.align_up c alignment := by
  cases hblk : a.blocks[a._active]? with
  | none =>
    simp only [arena.try_alloc_at_active, hblk] at h
    exact absurd h (by simp)
  | some blk =>
    simp only [arena.try_alloc_at_active, hblk] at h
    by_cases hg : sub64 blk.end_ (impl.align_up blk.cur alignment) < bytes
    · rw [if_pos hg] at h; exact absurd h (by simp)
    · rw [if_neg hg] at h
      injection h with h1
      injection h1 with h2 h3
      exact ⟨blk.cur, h3.symm⟩

/-- allocate_bytes when the request is satisfied by the active block. -/
theorem allocate_bytes_of_try_some {a a' : arena} {bytes alignment p : Nat}
    (h0 : bytes ≠ 0)
    (h : a.try_alloc_at_active bytes (effAlign alignment) = some (a', p)) :
    a.allocate_bytes bytes alignment = (a', .ok p) := by
  unfold arena.allocate_bytes
  rw [if_neg h0]
  simp only [h]

/-- allocate_bytes on the grow-and-retry path with a successful system
allocation: the new block is appended, linked from the old active block,
made active, and the retried bump allocation from it succeeds. -/
theorem allocate_bytes_grow {a : arena} {bytes alignment : Nat} {ab : block}
    (hab : a.blocks[a._active]? = some ab)
    (h0 : bytes ≠ 0)
    (htry : a.try_alloc_at_active bytes (effAlign alignment) = none)
    (hno : bytes + effAlign alignment < usizeTop)
    {addr na : Nat}
    (hnew : opNew a.nextAddr
        (max (max ((ab.capacity * 2) % usizeTop) (bytes + effAlign alignment)) a._block_size)
        = some (addr, na)) :
    a.allocate_bytes bytes alignment =
      ({ a with
          blocks := (a.blocks.set a._active { ab with next := some a.blocks.length })
            ++ [{ data := addr
                , cur := impl.align_up addr (effAlign alignment) + bytes
                , end_ := addr +
                    max (max ((ab.capacity * 2) % usizeTop) (bytes + effAlign alignment)) a._block_size
                , next := none
                , capacity :=
                    max (max ((ab.capacity * 2) % usizeTop) (bytes + effAlign alignment)) a._block_size }]
        , _active := a.blocks.length
        , nextAddr := na },
       .ok (impl.align_up addr (effAlign alignment))) := by
  obtain ⟨k, hk, heff⟩ := effAlign_pow2 alignment
  set eff := effAlign alignment with heffdef
  set new_cap := max (max ((ab.capacity * 2) % usizeTop) (bytes + eff)) a._block_size
    with hncap
  have hcap_need : bytes + eff ≤ new_cap := le_max_of_le_left (le_max_right _ _)
  -- unpack the successful system allocation
  have hguard : a.nextAddr + new_cap ≤ memLimit ∧ addr = a.nextAddr ∧
      na = ((a.nextAddr + new_cap + 15) / 16) * 16 := by
    unfold opNew at hnew
    by_cases hg : a.nextAddr + new_cap ≤ memLimit
    · rw [if_pos hg] at hnew
      injection hnew with h1
      injection h1 with h2 h3
      exact ⟨hg, h2.symm, h3.symm⟩
    · rw [if_neg hg] at hnew
      exact absurd hnew (by simp)
  obtain ⟨hmem, haddr, hna⟩ := hguard
  have hcap_mem : new_cap ≤ memLimit := by omega
  have haddr_mem : addr ≤ memLimit := by omega
  have heff_le : eff ≤ 2 ^ 63 := heff ▸ Nat.pow_le_pow_right (by omega) (by omega)
  have heff_pos : 0 < eff := heff ▸ Nat.pos_pow_of_pos k (by omega)
  have hwrap : addr + eff ≤ usizeTop := by
    have : memLimit + 2 ^ 63 ≤ usizeTop := by decide
    omega
  have halign := align_up_spec addr k hk (by rw [← heff]; exact hwrap)
  rw [← heff] at halign
  obtain ⟨hal_ge, hal_lt⟩ := halign
  -- the retried allocation on the new block
  have hend_lt : addr + new_cap < usizeTop := by
    have : memLimit < usizeTop := by decide
    omega
  have hsub : sub64 (addr + new_cap) (impl.align_up addr eff) =
      addr + new_cap - impl.align_up addr eff := by
    apply sub64_eq_of_le
    · omega
    · omega
  have hfits : ¬ sub64 (addr + new_cap) (impl.align_up addr eff) < bytes := by
    rw [hsub]
    omega
  have hcurmod : (impl.align_up addr eff + bytes) % usizeTop =
      impl.align_up addr eff + bytes := by
    apply Nat.mod_eq_of_lt
    omega
  -- now evaluate the function
  have hovf : (impl.overflow_addition bytes eff).2 = false := by
    unfold impl.overflow_addition
    simp only [decide_eq_false_iff_not, not_lt]
    rw [Nat.mod_eq_of_lt hno]
    omega
  have hneed : (impl.overflow_addition bytes eff).1 = bytes + eff := by
    unfold impl.overflow_addition
    exact Nat.mod_eq_of_lt hno
  have hactive_lt : a._active < a.blocks.length := by
    by_contra hge
    rw [List.getElem?_eq_none (by omega)] at hab
    exact absurd hab (by simp)
  have hsetlen : (a.blocks.set a._active { ab with next := some a.blocks.length }).length
      = a.blocks.length := List.length_set a.blocks _ _
  have hgetb : ((a.blocks.set a._active { ab with next := some a.blocks.length }) ++
      [({ data := addr, cur := addr, end_ := addr + new_cap
        , next := none, capacity := new_cap } : block)])[a.blocks.length]? =
      some { data := addr, cur := addr, end_ := addr + new_cap
           , next := none, capacity := new_cap } := by
    have h := List.getElem?_concat_length
      (a.blocks.set a._active { ab with next := some a.blocks.length })
      ({ data := addr, cur := addr, end_ := addr + new_cap
        , next := none, capacity := new_cap } : block)
    rw [hsetlen] at h
    exact h
  unfold arena.allocate_bytes
  rw [if_neg h0]
  simp only [← heffdef, htry, hab, hovf, hneed, Bool.false_eq_true, if_false, ← hncap, hnew]
  unfold arena.try_alloc_at_active
  simp only [hgetb, hfits, if_false]
  have hsetb : ((a.blocks.set a._active { ab with next := some a.blocks.length }) ++
      [({ data := addr, cur := addr, end_ := addr + new_cap
        , next := none, capacity := new_cap } : block)]).set a.blocks.length
        { data := addr, cur := (impl.align_up addr eff + bytes) % usizeTop
        , end_ := addr + new_cap, next := none, capacity := new_cap } =
      (a.blocks.set a._active { ab with next := some a.blocks.length }) ++
      [{ data := addr, cur := (impl.align_up addr eff + bytes) % usizeTop
       , end_ := addr + new_cap, next := none, capacity := new_cap }] := by
    rw [List.set_append_right _ _ (by omega)]
    congr 1
    rw [hsetlen]
    simp
  rw [hsetb, hcurmod]

theorem resetChain_length (fuel : Nat) :
    ∀ (bs : List block) (o : Option Nat), (resetChain bs o fuel).length = bs.length := by
  induction fuel with
  | zero => intro bs o; cases o <;> rfl
  | succ f ih =>
    intro bs o
    cases o with
    | none => rfl
    | some i =>
      unfold resetChain
      cases hbi : bs[i]? with
      | none => rfl
      | some b => rw [ih, List.length_set]

/-- chainFrom only looks at the next links, so cursor-only updates do not
change the walk. -/
theorem chainFrom_congr (fuel : Nat) :
    ∀ (bs bs' : List block),
    (∀ (j : Nat), bs[j]?.map block.next = bs'[j]?.map block.next) →
    ∀ o, chainFrom bs o fuel = chainFrom bs' o fuel := by
  induction fuel with
  | zero => intro bs bs' hn o; cases o <;> rfl
  | succ f ih =>
    intro bs bs' hn o
    cases o with
    | none => rfl
    | some i =>
      have hi := hn i
      cases hbi : bs[i]? with
      | none =>
        rw [hbi] at hi
        cases hbi' : bs'[i]? with
        | none => simp only [chainFrom, hbi, hbi']
        | some b' => rw [hbi'] at hi; exact absurd hi (by simp)
      | some b =>
        rw [hbi] at hi
        cases hbi' : bs'[i]? with
        | none => rw [hbi'] at hi; exact absurd hi (by simp)
        | some b' =>
          rw [hbi'] at hi
          have hnext : b.next = b'.next := by simpa using hi
          simp only [chainFrom, hbi, hbi']
          rw [hnext, ih bs bs' hn b'.next]

/-- The rollback loop resets exactly the cursors of the visited blocks. -/
theorem resetChain_getElem (fuel : Nat) :
    ∀ (bs : List block) (o : Option Nat) (j : Nat) (bj : block),
    bs[j]? = some bj →
    (resetChain bs o fuel)[j]? =
      some (if j ∈ chainFrom bs o fuel then { bj with cur := bj.data } else bj) := by
  induction fuel with
  | zero =>
    intro bs o j bj hbj
    cases o <;> simp [resetChain, chainFrom, hbj]
  | succ f ih =>
    intro bs o j bj hbj
    cases o with
    | none => simp [resetChain, chainFrom, hbj]
    | some i =>
      cases hbi : bs[i]? with
      | none =>
        unfold resetChain chainFrom
        simp [hbi, hbj]
      | some b =>
        simp only [resetChain, chainFrom, hbi]
        have hilt : i < bs.length := by
          by_contra hge
          rw [List.getElem?_eq_none (by omega)] at hbi
          exact absurd hbi (by simp)
        have hnextmap : ∀ (m : Nat), (bs.set i { b with cur := b.data })[m]?.map block.next =
            bs[m]?.map block.next := by
          intro m
          by_cases hmi : m = i
          · subst hmi
            rw [List.getElem?_set_self hilt, hbi]
            rfl
          · rw [List.getElem?_set_ne (by omega)]
        have hchain : chainFrom (bs.set i { b with cur := b.data }) b.next f =
            chainFrom bs b.next f :=
          chainFrom_congr f _ _ hnextmap b.next
        by_cases hji : j = i
        · subst hji
          have hbjb : bj = b := Option.some_injective _ (hbj.symm.trans hbi)
          subst hbjb
          have hset : (bs.set j { bj with cur := bj.data })[j]? =
              some { bj with cur := bj.data } := List.getElem?_set_self hilt
          have h2 := ih (bs.set j { bj with cur := bj.data }) bj.next j
            { bj with cur := bj.data } hset
          rw [hchain] at h2
          rw [h2]
          simp [ite_self]
        · have hset : (bs.set i { b with cur := b.data })[j]? = some bj := by
            rw [List.getElem?_set_ne (by omega)]
            exact hbj
          have h2 := ih (bs.set i { b with cur := b.data }) b.next j bj hset
          rw [hchain] at h2
          rw [h2]
          have hmem : (j ∈ i :: chainFrom bs b.next f) ↔ (j ∈ chainFrom bs b.next f) := by
            simp [List.mem_cons, hji]
          by_cases hj : j ∈ chainFrom bs b.next f
          · rw [if_pos hj, if_pos (hmem.mpr hj)]
          · rw [if_neg hj, if_neg (fun hc => hj (hmem.mp hc))]

/-- Reading the forward-links invariant at one block. -/
theorem chainInc_spec {bs : List block} (h : chainInc bs = true) {j : Nat} {b : block}
    (hb : bs[j]? = some b) {k : Nat} (hk : b.next = some k) :
    j < k ∧ k < bs.length := by
  have hj : j < bs.length := by
    by_contra hge
    rw [List.getElem?_eq_none (by omega)] at hb
    exact absurd hb (by simp)
  unfold chainInc at h
  rw [List.all_eq_true] at h
  have h2 := h j (List.mem_range.mpr hj)
  simp only [hb, hk, Bool.and_eq_true, decide_eq_true_eq] at h2
  exact h2

/-- Under the forward-links invariant every id visited from block n is ≥ n. -/
theorem chainFrom_ge {bs : List block} (hci : chainInc bs = true) :
    ∀ (fuel n x : Nat), x ∈ chainFrom bs (some n) fuel → n ≤ x := by
  intro fuel
  induction fuel with
  | zero => intro n x hx; simp [chainFrom] at hx
  | succ f ih =>
    intro n x hx
    unfold chainFrom at hx
    cases hbn : bs[n]? with
    | none => rw [hbn] at hx; simp at hx
    | some b =>
      rw [hbn] at hx
      rcases List.mem_cons.mp hx with h | h
      · omega
      · cases hnx : b.next with
        | none =>
          rw [hnx] at h
          cases f with
          | zero => simp [chainFrom] at h
          | succ f' => simp [chainFrom] at h
        | some n' =>
          rw [hnx] at h
          have hlt := (chainInc_spec hci hbn hnx).1
          have := ih n' x h
          omega

theorem chainFrom_none (bs : List block) (fuel : Nat) : chainFrom bs none fuel = [] := by
  cases fuel <;> rfl

/-- C4: rollback_to with a valid, non-stale marker of this arena makes the
marker's block active, restores that block's saved cursor, resets the cursor
of every block strictly after it in the next chain to that block's start,
and changes nothing else: no data, end, capacity or next field of any block,
no other cursor, and neither the growth seed, the head, nor the allocator
state. -/
theorem rollback_to_spec (a : arena) (m : marker) (i : Nat) (b : block)
    (hm : m.mem = some i) (hb : a.blocks[i]? = some b)
    (hci : chainInc a.blocks = true) :
    (a.rollback_to m)._active = i ∧
    (a.rollback_to m)._block_size = a._block_size ∧
    (a.rollback_to m)._head = a._head ∧
    (a.rollback_to m).nextAddr = a.nextAddr ∧
    (a.rollback_to m).blocks.length = a.blocks.length ∧
    ∀ (j : Nat) (bj : block), a.blocks[j]? = some bj →
      (a.rollback_to m).blocks[j]? = some { bj with cur :=
          (if j = i then m.cur
           else if j ∈ chainFrom a.blocks b.next a.blocks.length then bj.data
           else bj.cur) } := by
  have hilt : i < a.blocks.length := by
    by_contra hge
    rw [List.getElem?_eq_none (by omega)] at hb
    exact absurd hb (by simp)
  have hlen1 : (a.blocks.set i { b with cur := m.cur }).length = a.blocks.length :=
    List.length_set a.blocks _ _
  have hnm : ∀ (j : Nat),
      (a.blocks.set i { b with cur := m.cur })[j]?.map block.next =
      a.blocks[j]?.map block.next := by
    intro j
    by_cases hji : j = i
    · subst hji
      rw [List.getElem?_set_self hilt, hb]
      rfl
    · rw [List.getElem?_set_ne (by omega)]
  have hchain : ∀ o f, chainFrom (a.blocks.set i { b with cur := m.cur }) o f =
      chainFrom a.blocks o f := fun o f => chainFrom_congr f _ _ hnm o
  have hnotin : i ∉ chainFrom a.blocks b.next a.blocks.length := by
    cases hbn : b.next with
    | none => rw [chainFrom_none]; simp
    | some n =>
      intro hmem
      have h1 := (chainInc_spec hci hb hbn).1
      have h2 := chainFrom_ge hci a.blocks.length n i hmem
      omega
  have hres : a.rollback_to m =
      { a with
          _active := i
          blocks := (resetChain (a.blocks.set i { b with cur := m.cur }) b.next
            (a.blocks.set i { b with cur := m.cur }).length) } := by
    simp only [arena.rollback_to, hm, hb]
  rw [hres]
  refine ⟨rfl, rfl, rfl, rfl, ?_, ?_⟩
  · show (resetChain (a.blocks.set i { b with cur := m.cur }) b.next
        (a.blocks.set i { b with cur := m.cur }).length).length = a.blocks.length
    rw [resetChain_length, hlen1]
  · intro j bj hbj
    show (resetChain (a.blocks.set i { b with cur := m.cur }) b.next
        (a.blocks.set i { b with cur := m.cur }).length)[j]? = _
    by_cases hji : j = i
    · subst hji
      have hbjb : bj = b := Option.some_injective _ (hbj.symm.trans hb)
      subst hbjb
      have hset : (a.blocks.set j { bj with cur := m.cur })[j]? =
          some { bj with cur := m.cur } := List.getElem?_set_self hilt
      have h2 := resetChain_getElem
        (a.blocks.set j { bj with cur := m.cur }).length
        (a.blocks.set j { bj with cur := m.cur }) bj.next j
        { bj with cur := m.cur } hset
      rw [h2, hchain, hlen1, if_neg hnotin, if_pos rfl]
    · have hset : (a.blocks.set i { b with cur := m.cur })[j]? = some bj := by
        rw [List.getElem?_set_ne (by omega)]
        exact hbj
      have h2 := resetChain_getElem
        (a.blocks.set i { b with cur := m.cur }).length
        (a.blocks.set i { b with cur := m.cur }) b.next j bj hset
      rw [h2, hchain, hlen1, if_neg hji]
      by_cases hj : j ∈ chainFrom a.blocks b.next a.blocks.length
      · rw [if_pos hj, if_pos hj]
      · rw [if_neg hj, if_neg hj]

theorem getElem_some_lt {bs : List block} {i : Nat} {b : block}
    (h : bs[i]? = some b) : i < bs.length := by
  by_contra hge
  rw [List.getElem?_eq_none (by omega)] at h
  exact absurd h (by simp)

theorem alloc_zero_eq (a : arena) (alignment : Nat) :
    a.allocate_bytes 0 alignment = (a, .ok 0) := by
  simp [arena.allocate_bytes]

theorem opNew_spec {nextAddr bytes addr na : Nat}
    (h : opNew nextAddr bytes = some (addr, na)) :
    addr = nextAddr ∧ nextAddr + bytes ≤ memLimit ∧
    na = ((nextAddr + bytes + 15) / 16) * 16 := by
  unfold opNew at h
  by_cases hg : nextAddr + bytes ≤ memLimit
  · rw [if_pos hg] at h
    injection h with h1
    injection h1 with h2 h3
    exact ⟨h2.symm, hg, h3.symm⟩
  · rw [if_neg hg] at h
    exact absurd h (by simp)

/-- Replaying a growth-free request sequence from any arena that agrees with
the original on the active block returns the same per-request results. -/
theorem allocSeq_replay (reqs : List (Nat × Nat)) :
    ∀ (a s : arena), fitsActive a reqs = true →
    s._active = a._active → s.blocks[a._active]? = a.blocks[a._active]? →
    (allocSeq s reqs).2 = (allocSeq a reqs).2 := by
  induction reqs with
  | nil => intro a s hf hA hB; rfl
  | cons r rest ih =>
    obtain ⟨b, al⟩ := r
    intro a s hf hA hB
    by_cases hb0 : b = 0
    · subst hb0
      have hf' : fitsActive a rest = true := by simpa [fitsActive] using hf
      simp only [allocSeq, alloc_zero_eq]
      rw [ih a s hf' hA hB]
    · have hf2 := hf
      simp only [fitsActive, if_neg hb0] at hf2
      cases htryA : a.try_alloc_at_active b (effAlign al) with
      | none => rw [htryA] at hf2; exact absurd hf2 (by simp)
      | some pr =>
        obtain ⟨a1, p⟩ := pr
        rw [htryA] at hf2
        simp only [] at hf2
        cases hblkA : a.blocks[a._active]? with
        | none =>
          exact absurd htryA (by simp [arena.try_alloc_at_active, hblkA])
        | some blk =>
          obtain ⟨hp, hguard, ha1⟩ := try_alloc_some_spec hblkA htryA
          have hblkS : s.blocks[s._active]? = some blk := by rw [hA, hB, hblkA]
          have hiltA : a._active < a.blocks.length := getElem_some_lt hblkA
          have hiltS : s._active < s.blocks.length := getElem_some_lt hblkS
          have htryS : s.try_alloc_at_active b (effAlign al) =
              some ({ s with blocks := s.blocks.set s._active { blk with
                cur := (impl.align_up blk.cur (effAlign al) + b) % usizeTop } },
                impl.align_up blk.cur (effAlign al)) := by
            simp only [arena.try_alloc_at_active, hblkS, if_neg hguard]
          have eA : a.allocate_bytes b al = (a1, .ok p) :=
            allocate_bytes_of_try_some hb0 htryA
          have eS := allocate_bytes_of_try_some hb0 htryS
          simp only [allocSeq, eA, eS]
          have hrec := ih a1
            ({ s with blocks := s.blocks.set s._active { blk with
                cur := (impl.align_up blk.cur (effAlign al) + b) % usizeTop } })
            hf2 ?hA2 ?hB2
          case hA2 =>
            rw [ha1]
            exact hA
          case hB2 =>
            rw [ha1]
            show (s.blocks.set s._active { blk with
                cur := (impl.align_up blk.cur (effAlign al) + b) % usizeTop })[a._active]? = _
            rw [hA] at hiltS ⊢
            rw [List.getElem?_set_self hiltS, List.getElem?_set_self hiltA]
          rw [hrec, hp]

/-- A growth-free request sequence keeps the active index, touches only the
active block's cursor, and in particular preserves every next link. -/
theorem allocSeq_fits_state (reqs : List (Nat × Nat)) :
    ∀ (a : arena) (ab : block), a.blocks[a._active]? = some ab →
    fitsActive a reqs = true →
    (allocSeq a reqs).1._active = a._active ∧
    (∀ (j : Nat), (allocSeq a reqs).1.blocks[j]?.map block.next =
      a.blocks[j]?.map block.next) ∧
    ∃ c, (allocSeq a reqs).1.blocks[a._active]? = some { ab with cur := c } := by
  induction reqs with
  | nil =>
    intro a ab hab hf
    refine ⟨rfl, fun j => rfl, ab.cur, ?_⟩
    show a.blocks[a._active]? = some { ab with cur := ab.cur }
    rw [hab]
  | cons r rest ih =>
    obtain ⟨b, al⟩ := r
    intro a ab hab hf
    by_cases hb0 : b = 0
    · subst hb0
      have hf' : fitsActive a rest = true := by simpa [fitsActive] using hf
      have h := ih a ab hab hf'
      simpa only [allocSeq, alloc_zero_eq] using h
    · have hf2 := hf
      simp only [fitsActive, if_neg hb0] at hf2
      cases htryA : a.try_alloc_at_active b (effAlign al) with
      | none => rw [htryA] at hf2; exact absurd hf2 (by simp)
      | some pr =>
        obtain ⟨a1, p⟩ := pr
        rw [htryA] at hf2
        simp only [] at hf2
        cases hblkA : a.blocks[a._active]? with
        | none =>
          exact absurd htryA (by simp [arena.try_alloc_at_active, hblkA])
        | some blk =>
          have hblkab : blk = ab := Option.some_injective _ (hblkA.symm.trans hab)
          subst hblkab
          obtain ⟨hp, hguard, ha1⟩ := try_alloc_some_spec hblkA htryA
          have hiltA : a._active < a.blocks.length := getElem_some_lt hblkA
          have hab1 : a1.blocks[a1._active]? = some { blk with
              cur := (impl.align_up blk.cur (effAlign al) + b) % usizeTop } := by
            rw [ha1]
            exact List.getElem?_set_self hiltA
          have h := ih a1 _ hab1 hf2
          obtain ⟨h1, h2, c, h3⟩ := h
          have ha1A : a1._active = a._active := by rw [ha1]
          have eA : a.allocate_bytes b al = (a1, .ok p) :=
            allocate_bytes_of_try_some hb0 htryA
          refine ⟨?_, ?_, ?_⟩
          · simp only [allocSeq, eA]
            rw [h1, ha1A]
          · intro j
            simp only [allocSeq, eA]
            rw [h2 j, ha1]
            by_cases hji : j = a._active
            · subst hji
              show ((a.blocks.set a._active _)[a._active]?).map block.next = _
              rw [List.getElem?_set_self hiltA, hblkA]
              rfl
            · show ((a.blocks.set a._active _)[j]?).map block.next = _
              rw [List.getElem?_set_ne (by omega)]
          · refine ⟨c, ?_⟩
            simp only [allocSeq, eA]
            rw [← ha1A]
            exact h3

/-- Rolling an arena that differs from a only in cursors (and only through
growth-free allocation on the active block) back to a's marker restores a's
active block exactly. -/
theorem rollback_restores_active {a a1 : arena} {ab : block}
    (hab : a.blocks[a._active]? = some ab)
    (hci : chainInc a.blocks = true)
    (hA : a1._active = a._active)
    (hnm : ∀ (j : Nat), a1.blocks[j]?.map block.next = a.blocks[j]?.map block.next)
    {c : Nat} (hcur : a1.blocks[a._active]? = some { ab with cur := c }) :
    (a1.rollback_to a.create_marker)._active = a._active ∧
    (a1.rollback_to a.create_marker).blocks[a._active]? = some ab := by
  have hmm : (a.create_marker).mem = some a._active := rfl
  have hmc : (a.create_marker).cur = ab.cur := by
    simp [arena.create_marker, hab]
  have hilt1 : a._active < a1.blocks.length := getElem_some_lt hcur
  have hres : a1.rollback_to a.create_marker =
      { a1 with
          _active := a._active
          blocks := (resetChain
            (a1.blocks.set a._active { { ab with cur := c } with cur := (a.create_marker).cur })
            ({ ab with cur := c } : block).next
            (a1.blocks.set a._active
              { { ab with cur := c } with cur := (a.create_marker).cur }).length) } := by
    simp only [arena.rollback_to, hmm, hcur]
  have hset : (a1.blocks.set a._active
      { { ab with cur := c } with cur := (a.create_marker).cur })[a._active]? =
      some { ab with cur := (a.create_marker).cur } := List.getElem?_set_self hilt1
  have hnm1 : ∀ (j : Nat), (a1.blocks.set a._active
      { { ab with cur := c } with cur := (a.create_marker).cur })[j]?.map block.next =
      a.blocks[j]?.map block.next := by
    intro j
    by_cases hji : j = a._active
    · subst hji
      rw [List.getElem?_set_self hilt1, hab]
      rfl
    · rw [List.getElem?_set_ne (by omega)]
      exact hnm j
  have h2 := resetChain_getElem
    (a1.blocks.set a._active { { ab with cur := c } with cur := (a.create_marker).cur }).length
    (a1.blocks.set a._active { { ab with cur := c } with cur := (a.create_marker).cur })
    (({ ab with cur := c } : block).next) a._active
    { ab with cur := (a.create_marker).cur } hset
  have hchain : chainFrom
      (a1.blocks.set a._active { { ab with cur := c } with cur := (a.create_marker).cur })
      (({ ab with cur := c } : block).next)
      (a1.blocks.set a._active
        { { ab with cur := c } with cur := (a.create_marker).cur }).length =
      chainFrom a.blocks (ab.next)
        (a1.blocks.set a._active
          { { ab with cur := c } with cur := (a.create_marker).cur }).length := by
    exact chainFrom_congr _ _ _ hnm1 _
  have hnotin : a._active ∉ chainFrom a.blocks ab.next
      (a1.blocks.set a._active
        { { ab with cur := c } with cur := (a.create_marker).cur }).length := by
    cases hbn : ab.next with
    | none => rw [chainFrom_none]; simp
    | some n =>
      intro hmem
      have h1 := (chainInc_spec hci hab hbn).1
      have hge := chainFrom_ge hci _ n a._active hmem
      omega
  refine ⟨by rw [hres], ?_⟩
  rw [hres]
  show (resetChain
      (a1.blocks.set a._active { { ab with cur := c } with cur := (a.create_marker).cur })
      (({ ab with cur := c } : block).next)
      (a1.blocks.set a._active
        { { ab with cur := c } with cur := (a.create_marker).cur }).length)[a._active]? =
      some ab
  rw [h2, hchain, if_neg hnotin, hmc]

/-- C6 (amended): when the allocation inside make is satisfied from the
active block without growing the chain and the constructor of T throws, the
arena is rolled back to the pre-call marker, the error propagates, and a
subsequent allocation of the same size and alignment returns exactly the
address the failed construction attempted to use. -/
theorem make_ctor_fail_same_address (a : arena) (size align : Nat) (ab : block)
    (a1 : arena) (p : Nat)
    (hab : a.blocks[a._active]? = some ab)
    (hci : chainInc a.blocks = true)
    (h0 : size ≠ 0)
    (htry : a.try_alloc_at_active size (effAlign align) = some (a1, p)) :
    a.make size align false = (a1.rollback_to a.create_marker, .error .ctorFailed) ∧
    ((a1.rollback_to a.create_marker).allocate_bytes size align).2 = .ok p := by
  obtain ⟨hp, hguard, ha1⟩ := try_alloc_some_spec hab htry
  have hiltA : a._active < a.blocks.length := getElem_some_lt hab
  have emake : a.make size align false =
      (a1.rollback_to a.create_marker, .error .ctorFailed) := by
    simp only [arena.make, allocate_bytes_of_try_some h0 htry, Bool.false_eq_true,
      if_false]
  refine ⟨emake, ?_⟩
  have hA : a1._active = a._active := by rw [ha1]
  have hnm : ∀ (j : Nat), a1.blocks[j]?.map block.next = a.blocks[j]?.map block.next := by
    intro j
    rw [ha1]
    by_cases hji : j = a._active
    · subst hji
      show ((a.blocks.set a._active _)[a._active]?).map block.next = _
      rw [List.getElem?_set_self hiltA, hab]
      rfl
    · show ((a.blocks.set a._active _)[j]?).map block.next = _
      rw [List.getElem?_set_ne (by omega)]
  have hcur : a1.blocks[a._active]? = some { ab with
      cur := (impl.align_up ab.cur (effAlign align) + size) % usizeTop } := by
    rw [ha1]
    exact List.getElem?_set_self hiltA
  obtain ⟨hrA, hrB⟩ := rollback_restores_active hab hci hA hnm hcur
  have htryR : (a1.rollback_to a.create_marker).try_alloc_at_active size
      (effAlign align) =
      some ({ (a1.rollback_to a.create_marker) with
          blocks := (a1.rollback_to a.create_marker).blocks.set
            (a1.rollback_to a.create_marker)._active { ab with
              cur := (impl.align_up ab.cur (effAlign align) + size) % usizeTop } },
        impl.align_up ab.cur (effAlign align)) := by
    have hRblk : (a1.rollback_to a.create_marker).blocks[
        (a1.rollback_to a.create_marker)._active]? = some ab := by
      rw [hrA]
      exact hrB
    simp only [arena.try_alloc_at_active, hRblk, if_neg hguard]
  rw [allocate_bytes_of_try_some h0 htryR, hp]

/-- C5 (amended): after capturing a marker and issuing a sequence of
requests that are all satisfied from the then-active block (no chunk
growth), rolling back to the marker and reissuing the exact same sequence
returns exactly the same results, in particular the same addresses. -/
theorem replay_no_growth_same_results (a : arena) (reqs : List (Nat × Nat))
    (ab : block)
    (hab : a.blocks[a._active]? = some ab)
    (hci : chainInc a.blocks = true)
    (hfits : fitsActive a reqs = true) :
    (allocSeq ((allocSeq a reqs).1.rollback_to a.create_marker) reqs).2 =
      (allocSeq a reqs).2 := by
  obtain ⟨hA, hnm, c, hcur⟩ := allocSeq_fits_state reqs a ab hab hfits
  obtain ⟨hrA, hrB⟩ := rollback_restores_active hab hci hA hnm hcur
  refine allocSeq_replay reqs a _ hfits hrA ?_
  rw [hrB, hab]

/-- C3: when a nonzero request does not fit in the active block, the arena
computes bytes + alignment with overflow-checked addition and fails with
OutOfMemory on overflow, leaving the arena untouched; otherwise (when the
system allocation succeeds) it creates exactly one new chunk whose capacity
is at least each of twice the old active capacity, bytes + alignment, and
the growth seed, and the allocation succeeds from that chunk. -/
theorem grow_policy_spec :
    (∀ (a : arena) (bytes alignment : Nat) (ab : block),
      a.blocks[a._active]? = some ab → bytes ≠ 0 → bytes < usizeTop →
      a.try_alloc_at_active bytes (effAlign alignment) = none →
      usizeTop ≤ bytes + effAlign alignment →
      a.allocate_bytes bytes alignment = (a, .error .badAlloc)) ∧
    (∀ (a : arena) (bytes alignment : Nat) (ab : block) (addr na : Nat),
      a.blocks[a._active]? = some ab → bytes ≠ 0 →
      a.try_alloc_at_active bytes (effAlign alignment) = none →
      bytes + effAlign alignment < usizeTop →
      ab.capacity * 2 < usizeTop →
      opNew a.nextAddr
        (max (max ((ab.capacity * 2) % usizeTop) (bytes + effAlign alignment))
          a._block_size) = some (addr, na) →
      (a.allocate_bytes bytes alignment).1.blocks.length = a.blocks.length + 1 ∧
      ∃ nb, (a.allocate_bytes bytes alignment).1.blocks[a.blocks.length]? = some nb ∧
        2 * ab.capacity ≤ nb.capacity ∧
        bytes + effAlign alignment ≤ nb.capacity ∧
        a._block_size ≤ nb.capacity ∧
        (a.allocate_bytes bytes alignment).2 = .ok (impl.align_up addr (effAlign alignment)) ∧
        nb.data ≤ impl.align_up addr (effAlign alignment) ∧
        impl.align_up addr (effAlign alignment) + bytes ≤ nb.end_) := by
  constructor
  · intro a bytes alignment ab hab h0 hblt htry hovfl
    have heffle : effAlign alignment ≤ 2 ^ 63 := effAlign_le alignment
    have heffT : effAlign alignment < usizeTop := by
      have : (2 : Nat) ^ 63 < usizeTop := by decide
      omega
    have hovf : (impl.overflow_addition bytes (effAlign alignment)).2 = true := by
      unfold impl.overflow_addition
      simp only [decide_eq_true_eq]
      have hmod : (bytes + effAlign alignment) % usizeTop =
          bytes + effAlign alignment - usizeTop := by
        rw [Nat.mod_eq_sub_mod hovfl, Nat.mod_eq_of_lt (by omega)]
      rw [hmod]
      omega
    unfold arena.allocate_bytes
    rw [if_neg h0]
    simp only [htry, hab, hovf, if_true]
  · intro a bytes alignment ab addr na hab h0 htry hno hcap hnew
    have hgrow := allocate_bytes_grow hab h0 htry hno hnew
    obtain ⟨haddr, hmem, -⟩ := opNew_spec hnew
    have heffle : effAlign alignment ≤ 2 ^ 63 := effAlign_le alignment
    have heffpos : 0 < effAlign alignment := effAlign_pos alignment
    obtain ⟨k, hk, heff⟩ := effAlign_pow2 alignment
    have hwrap : addr + effAlign alignment ≤ usizeTop := by
      have h1 : memLimit + 2 ^ 63 ≤ usizeTop := by decide
      have h2 : a.nextAddr ≤ memLimit := le_trans (Nat.le_add_right _ _) hmem
      omega
    have halign := align_up_spec addr k hk (by rw [← heff]; exact hwrap)
    rw [← heff] at halign
    obtain ⟨hal_ge, hal_lt⟩ := halign
    have hmodcap : (ab.capacity * 2) % usizeTop = ab.capacity * 2 :=
      Nat.mod_eq_of_lt hcap
    rw [hgrow]
    have hsetlen : (a.blocks.set a._active
        { ab with next := some a.blocks.length }).length = a.blocks.length :=
      List.length_set a.blocks _ _
    constructor
    · show ((a.blocks.set a._active { ab with next := some a.blocks.length }) ++
          [_]).length = a.blocks.length + 1
      rw [List.length_append, hsetlen]
      rfl
    · refine ⟨{ data := addr
              , cur := impl.align_up addr (effAlign alignment) + bytes
              , end_ := addr +
                  max (max ((ab.capacity * 2) % usizeTop) (bytes + effAlign alignment))
                    a._block_size
              , next := none
              , capacity :=
                  max (max ((ab.capacity * 2) % usizeTop) (bytes + effAlign alignment))
                    a._block_size }, ?_, ?_, ?_, ?_, rfl, ?_, ?_⟩
      · show ((a.blocks.set a._active { ab with next := some a.blocks.length }) ++
            [_])[a.blocks.length]? = _
        have h := List.getElem?_concat_length
          (a.blocks.set a._active { ab with next := some a.blocks.length })
          ({ data := addr
           , cur := impl.align_up addr (effAlign alignment) + bytes
           , end_ := addr +
               max (max ((ab.capacity * 2) % usizeTop) (bytes + effAlign alignment))
                 a._block_size
           , next := none
           , capacity :=
               max (max ((ab.capacity * 2) % usizeTop) (bytes + effAlign alignment))
                 a._block_size } : block)
        rw [hsetlen] at h
        exact h
      · show 2 * ab.capacity ≤
            max (max ((ab.capacity * 2) % usizeTop) (bytes + effAlign alignment))
              a._block_size
        rw [hmodcap]
        omega
      · exact le_max_of_le_left (le_max_right _ _)
      · exact le_max_right _ _
      · show _ ≤ impl.align_up addr (effAlign alignment)
        exact hal_ge
      · show impl.align_up addr (effAlign alignment) + bytes ≤ addr + _
        have hneed : bytes + effAlign alignment ≤
            max (max ((ab.capacity * 2) % usizeTop) (bytes + effAlign alignment))
              a._block_size := le_max_of_le_left (le_max_right _ _)
        have hstep : impl.align_up addr (effAlign alignment) + bytes ≤
            addr + (bytes + effAlign alignment) := by omega
        exact le_trans hstep (Nat.add_le_add_left hneed addr)

/-- C8: whenever a nonzero request misses the active block, the needed size
computation does not overflow, and the system allocation for the new chunk
succeeds, the single retried allocation always succeeds: the final
OutOfMemory branch after the retry is unreachable. -/
theorem retry_after_growth_succeeds (a : arena) (bytes alignment : Nat)
    (ab : block) (addr na : Nat)
    (hab : a.blocks[a._active]? = some ab)
    (h0 : bytes ≠ 0)
    (htry : a.try_alloc_at_active bytes (effAlign alignment) = none)
    (hno : bytes + effAlign alignment < usizeTop)
    (hnew : opNew a.nextAddr
        (max (max ((ab.capacity * 2) % usizeTop) (bytes + effAlign alignment))
          a._block_size) = some (addr, na)) :
    ∃ a' p, a.allocate_bytes bytes alignment = (a', Except.ok p) :=
  ⟨_, _, allocate_bytes_grow hab h0 htry hno hnew⟩

/-- C7: an invalid alignment (zero or not a power of two) is silently
replaced by the platform maximum natural alignment, so the call behaves
exactly like one with the default alignment and never fails because of it;
and every successfully returned pointer is a multiple of the effective
alignment. -/
theorem alignment_corrected_and_pointer_aligned :
    (∀ (a : arena) (bytes alignment : Nat),
      (alignment == 0 || !(impl.is_pow_2 alignment)) = true →
      a.allocate_bytes bytes alignment = a.allocate_bytes bytes maxAlignT) ∧
    (∀ (a a' : arena) (bytes alignment p : Nat),
      a.allocate_bytes bytes alignment = (a', Except.ok p) →
      effAlign alignment ∣ p) := by
  constructor
  · intro a bytes alignment hinv
    have h1 : effAlign alignment = maxAlignT := by
      unfold effAlign
      rw [if_pos hinv]
    have h2 : effAlign maxAlignT = maxAlignT := by decide
    unfold arena.allocate_bytes
    rw [h1, h2]
  · intro a a' bytes alignment p h
    obtain ⟨k, hk, heff⟩ := effAlign_pow2 alignment
    have hdvd : ∀ c, effAlign alignment ∣ impl.align_up c (effAlign alignment) := by
      intro c
      rw [heff]
      exact align_up_dvd c k hk
    by_cases h0 : bytes = 0
    · subst h0
      rw [alloc_zero_eq] at h
      injection h with h1 h2
      injection h2 with h3
      rw [← h3]
      exact dvd_zero _
    · unfold arena.allocate_bytes at h
      rw [if_neg h0] at h
      cases htry : a.try_alloc_at_active bytes (effAlign alignment) with
      | some pr =>
        obtain ⟨x, q⟩ := pr
        simp only [htry] at h
        injection h with h1 h2
        injection h2 with h3
        obtain ⟨c, hc⟩ := try_alloc_ptr htry
        rw [← h3, hc]
        exact hdvd c
      | none =>
        simp only [htry] at h
        cases hab : a.blocks[a._active]? with
        | none =>
          simp only [hab] at h
          exact absurd h (by simp)
        | some ab =>
          simp only [hab] at h
          by_cases hovf : (impl.overflow_addition bytes (effAlign alignment)).2 = true
          · rw [if_pos hovf] at h
            exact absurd h (by simp)
          · rw [if_neg hovf] at h
            cases hnew : opNew a.nextAddr
                (max (max ((ab.capacity * 2) % usizeTop)
                  (impl.overflow_addition bytes (effAlign alignment)).1)
                  a._block_size) with
            | none =>
              rw [hnew] at h
              exact absurd h (by simp)
            | some pr2 =>
              obtain ⟨addr, na⟩ := pr2
              rw [hnew] at h
              cases htry2 : arena.try_alloc_at_active
                  { a with
                      blocks := (a.blocks.set a._active
                          { ab with next := some a.blocks.length }) ++
                        [{ data := addr, cur := addr
                         , end_ := addr +
                             max (max ((ab.capacity * 2) % usizeTop)
                               (impl.overflow_addition bytes (effAlign alignment)).1)
                               a._block_size
                         , next := none
                         , capacity :=
                             max (max ((ab.capacity * 2) % usizeTop)
                               (impl.overflow_addition bytes (effAlign alignment)).1)
                               a._block_size }]
                      _active := a.blocks.length
                      nextAddr := na }
                  bytes (effAlign alignment) with
              | some pr3 =>
                obtain ⟨x, q⟩ := pr3
                simp only [htry2] at h
                injection h with h1 h2
                injection h2 with h3
                obtain ⟨c, hc⟩ := try_alloc_ptr htry2
                rw [← h3, hc]
                exact hdvd c
              | none =>
                simp only [htry2] at h
                exact absurd h (by simp)

/-- C9: for every alignment, allocate_bytes with bytes = 0 returns the null
pointer and leaves the whole arena (every block, the links, the active block
and the growth seed) unchanged. -/
theorem allocate_bytes_zero_noop (a : arena) (alignment : Nat) :
    a.allocate_bytes 0 alignment = (a, .ok 0) := by
  simp [arena.allocate_bytes]

/-- C10: rollback_to with a marker whose block reference is null returns the
arena completely unchanged. -/
theorem rollback_null_marker_noop (a : arena) (cur : Nat) :
    a.rollback_to { mem := none, cur := cur } = a := by
  simp [arena.rollback_to]

/-- C1: the claimed chain invariant fails on the code.  After capturing a
marker, growing (chunk 1), rolling back, and growing again, the second
growth overwrites the old active block's next pointer: the arena has created
three chunks but the next chain from head reaches only chunks 0 and 2 -
chunk 1 is orphaned, so it is neither reachable from head nor ever
destroyed by the teardown walk, which follows exactly these links. -/
theorem grow_after_rollback_orphans_chunk :
    ((((initArena.allocate_bytes 2000 8).1.rollback_to
        initArena.create_marker).allocate_bytes 2000 8).1.blocks.length = 3) ∧
    (1 : Nat) ∉ chainFrom
      ((((initArena.allocate_bytes 2000 8).1.rollback_to
          initArena.create_marker).allocate_bytes 2000 8).1.blocks)
      (some ((((initArena.allocate_bytes 2000 8).1.rollback_to
          initArena.create_marker).allocate_bytes 2000 8).1._head))
      ((((initArena.allocate_bytes 2000 8).1.rollback_to
          initArena.create_marker).allocate_bytes 2000 8).1.blocks.length) := by
  decide

/-- C2: the claimed cursor bound fails on the code.  Requesting 1 byte at
alignment 2048 from a fresh arena(1024) whose block starts at a
16-aligned but not 2048-aligned address rounds the cursor to 2048, past
end = 1040; the wrapped unsigned pointer difference makes the fit check
pass, so the call succeeds and leaves cur = 2049 > end = 1040. -/
theorem cursor_can_pass_end :
    (initArena.allocate_bytes 1 2048).2 = .ok 2048 ∧
    (initArena.allocate_bytes 1 2048).1.blocks =
      [{ data := 16, cur := 2049, end_ := 1040, next := none, capacity := 1024 }] ∧
    ¬ 2049 ≤ 1040 := by
  decide

/-- C5 (counterexample): replaying the same request sequence after a
rollback does not reproduce the original addresses when the sequence grew
the chain: the original allocate(2000, 8) returned 1040 (inside the first
grown chunk), the replay after rollback_to returns 3088 (inside a freshly
allocated chunk). -/
theorem replay_after_growth_differs :
    (allocSeq initArena [(2000, 8)]).2 = [Except.ok 1040] ∧
    (allocSeq ((allocSeq initArena [(2000, 8)]).1.rollback_to
        initArena.create_marker) [(2000, 8)]).2 = [Except.ok 3088] ∧
    (1040 : Nat) ≠ 3088 := by
  decide

/-- C6 (counterexample): when the allocation inside make grew the chain and
the constructor throws, the rollback does not make the arena reusable at
the same address: the failed construction used address 1040 but the
subsequent same-size allocation returns 3088 from another fresh chunk. -/
theorem make_ctor_fail_growth_differs :
    (initArena.allocate_bytes 2000 8).2 = .ok 1040 ∧
    (initArena.make 2000 8 false).2 = .error .ctorFailed ∧
    ((initArena.make 2000 8 false).1.allocate_bytes 2000 8).2 = .ok 3088 ∧
    (1040 : Nat) ≠ 3088 := by
  decide

theorem grow_policy_spec_witness :
    (initArena.allocate_bytes (usizeTop - 16) 16 = (initArena, .error .badAlloc)) ∧
    ((initArena.allocate_bytes 2000 8).1.blocks.length = initArena.blocks.length + 1 ∧
     ∃ nb, (initArena.allocate_bytes 2000 8).1.blocks[initArena.blocks.length]? = some nb ∧
       2 * (⟨16, 16, 1040, none, 1024⟩ : block).capacity ≤ nb.capacity ∧
       2000 + effAlign 8 ≤ nb.capacity ∧
       initArena._block_size ≤ nb.capacity ∧
       (initArena.allocate_bytes 2000 8).2 = .ok (impl.align_up 1040 (effAlign 8)) ∧
       nb.data ≤ impl.align_up 1040 (effAlign 8) ∧
       impl.align_up 1040 (effAlign 8) + 2000 ≤ nb.end_) :=
  ⟨grow_policy_spec.1 initArena (usizeTop - 16) 16 ⟨16, 16, 1040, none, 1024⟩
      (by decide) (by decide) (by decide) (by decide) (by decide),
   grow_policy_spec.2 initArena 2000 8 ⟨16, 16, 1040, none, 1024⟩ 1040 3088
      (by decide) (by decide) (by decide) (by decide) (by decide) (by decide)⟩

theorem rollback_to_spec_witness :
    chainInc (initArena.allocate_bytes 2000 8).1.blocks = true ∧
    ((initArena.allocate_bytes 2000 8).1.rollback_to ⟨some 0, 16⟩)._active = 0 :=
  ⟨by decide,
   (rollback_to_spec (initArena.allocate_bytes 2000 8).1 ⟨some 0, 16⟩ 0
     ⟨16, 16, 1040, some 1, 1024⟩ (by decide) (by decide) (by decide)).1⟩

theorem replay_no_growth_same_results_witness :
    fitsActive initArena [(200, 8)] = true ∧
    (allocSeq ((allocSeq initArena [(200, 8)]).1.rollback_to
        initArena.create_marker) [(200, 8)]).2 = (allocSeq initArena [(200, 8)]).2 :=
  ⟨by decide,
   replay_no_growth_same_results initArena [(200, 8)] ⟨16, 16, 1040, none, 1024⟩
     (by decide) (by decide) (by decide)⟩

theorem make_ctor_fail_same_address_witness :
    initArena.try_alloc_at_active 200 (effAlign 8) =
      some ({ initArena with blocks := [⟨16, 216, 1040, none, 1024⟩] }, 16) ∧
    initArena.make 200 8 false =
      (({ initArena with blocks := [⟨16, 216, 1040, none, 1024⟩] } : arena).rollback_to
        initArena.create_marker, .error .ctorFailed) ∧
    ((({ initArena with blocks := [⟨16, 216, 1040, none, 1024⟩] } : arena).rollback_to
        initArena.create_marker).allocate_bytes 200 8).2 = .ok 16 :=
  ⟨by decide,
   (make_ctor_fail_same_address initArena 200 8 ⟨16, 16, 1040, none, 1024⟩
     { initArena with blocks := [⟨16, 216, 1040, none, 1024⟩] } 16
     (by decide) (by decide) (by decide) (by decide)).1,
   (make_ctor_fail_same_address initArena 200 8 ⟨16, 16, 1040, none, 1024⟩
     { initArena with blocks := [⟨16, 216, 1040, none, 1024⟩] } 16
     (by decide) (by decide) (by decide) (by decide)).2⟩

theorem alignment_corrected_and_pointer_aligned_witness :
    ((3 == 0 || !(impl.is_pow_2 3)) = true ∧
     initArena.allocate_bytes 100 3 = initArena.allocate_bytes 100 maxAlignT) ∧
    (initArena.allocate_bytes 100 16 =
       ({ initArena with blocks := [⟨16, 116, 1040, none, 1024⟩] }, .ok 16) ∧
     effAlign 16 ∣ 16) :=
  ⟨⟨by decide, alignment_corrected_and_pointer_aligned.1 initArena 100 3 (by decide)⟩,
   ⟨by decide,
    alignment_corrected_and_pointer_aligned.2 initArena
      { initArena with blocks := [⟨16, 116, 1040, none, 1024⟩] } 100 16 16 (by decide)⟩⟩

theorem retry_after_growth_succeeds_witness :
    initArena.try_alloc_at_active 2000 (effAlign 8) = none ∧
    ∃ a' p, initArena.allocate_bytes 2000 8 = (a', Except.ok p) :=
  ⟨by decide,
   retry_after_growth_succeeds initArena 2000 8 ⟨16, 16, 1040, none, 1024⟩ 1040 3088
     (by decide) (by decide) (by decide) (by decide) (by decide)⟩
